import Mathlib

/-!
Shallow embedding of the clause-analysis pipeline of the AI legal document
analyzer (Python source under `app/` and `streamlit_app.py`), together with
theorems settling the specification's claims about it.

Python strings are embedded as `List Char`; Python dict-backed clause records
as the `Clause` structure with `Option`-valued fields (a `none` field models a
key that is absent from the dict); values produced by `json.loads` as the
`Json` type; Python exceptions as the `PyErr` type, and a function that can
raise returns its mutation state paired with `Option PyErr` (the list as
mutated so far, plus the exception if one escaped).  `json.loads` itself is
library code outside the repository, so a parsed annotator response enters the
model as `Option Json`: `none` models a `json.JSONDecodeError`, `some j` a
successful decode to the value `j`.
-/

/-- Embed a Lean string literal as a Python string (list of characters). -/
def pstr (s : String) : List Char := s.data

/-- Characters stripped by Python `str.strip()` (ASCII whitespace). -/
def isPySpace (c : Char) : Bool :=
  c = ' ' || c = '\t' || c = '\n' || c = '\r' || c = '\x0b' || c = '\x0c'

/-- Python `str.strip()`: remove leading and trailing whitespace. -/
def pyStrip (s : List Char) : List Char :=
  ((s.dropWhile isPySpace).reverse.dropWhile isPySpace).reverse

/-- Python `str.lower()` (ASCII case fold, which covers the texts involved). -/
def pyLower (s : List Char) : List Char := s.map Char.toLower

/-- Python `text.split('\n\n')`: cut at each occurrence of two consecutive
newline characters, scanning left to right, keeping empty pieces. -/
def pySplitNN : List Char → List (List Char)
  | [] => [[]]
  | '\n' :: '\n' :: rest => [] :: pySplitNN rest
  | c :: rest =>
    match pySplitNN rest with
    | [] => [[c]]
    | h :: t => (c :: h) :: t

/-- Python substring test `needle in hay`. -/
def isSubstr (needle : List Char) : List Char → Bool
  | [] => needle.isEmpty
  | c :: rest => needle.isPrefixOf (c :: rest) || isSubstr needle rest

/-- The decimal digit character for `d < 10`. -/
def digitChar (d : Nat) : Char := Char.ofNat (48 + d)

/-- Fuel-driven decimal rendering of a natural number (least digit last). -/
def toDecAux : Nat → Nat → List Char
  | 0, _ => []
  | fuel + 1, n =>
    if n < 10 then [digitChar n]
    else toDecAux fuel (n / 10) ++ [digitChar (n % 10)]

/-- Decimal rendering of a natural number, as Python `f"{n}"` produces. -/
def toDec (n : Nat) : List Char := toDecAux (n + 1) n

/-- Value of a list of decimal digit characters. -/
def decVal (ds : List Char) : Nat :=
  ds.foldl (fun a c => 10 * a + (c.toNat - 48)) 0

/-- The clause identifier Python builds as `f"page_{p}_clause_{i}"`. -/
def mkId (p i : Nat) : List Char :=
  pstr "page_" ++ toDec p ++ pstr "_clause_" ++ toDec i

/-- Recover the page number and ordinal from a well-formed clause identifier. -/
def parseId (cs : List Char) : Option (Nat × Nat) :=
  match cs with
  | 'p' :: 'a' :: 'g' :: 'e' :: '_' :: rest =>
    match rest.dropWhile Char.isDigit with
    | '_' :: 'c' :: 'l' :: 'a' :: 'u' :: 's' :: 'e' :: '_' :: rest3 =>
      if rest.takeWhile Char.isDigit ≠ [] ∧ rest3 ≠ [] ∧ rest3.all Char.isDigit
      then some (decVal (rest.takeWhile Char.isDigit), decVal rest3)
      else none
    | _ => none
  | _ => none

mutual
/-- A value produced by Python `json.loads` (numbers restricted to integers,
the only kind the claims involve). -/
inductive Json where
  | null : Json
  | bool (b : Bool) : Json
  | num (n : Int) : Json
  | str (s : List Char) : Json
  | arr (items : JsonList) : Json
  | obj (fields : JsonFields) : Json
deriving DecidableEq
/-- A JSON array's list of elements. -/
inductive JsonList where
  | nil : JsonList
  | cons (hd : Json) (tl : JsonList) : JsonList
deriving DecidableEq
/-- A JSON object's key/value bindings (later bindings shadow earlier ones,
as `json.loads` building a Python dict makes them). -/
inductive JsonFields where
  | nil : JsonFields
  | cons (key : List Char) (val : Json) (tl : JsonFields) : JsonFields
deriving DecidableEq
end

/-- View a JSON array's elements as an ordinary list. -/
def JsonList.toList : JsonList → List Json
  | .nil => []
  | .cons h t => h :: t.toList

/-- Build a JSON array from an ordinary list. -/
def jarr (xs : List Json) : Json := Json.arr (xs.foldr JsonList.cons JsonList.nil)

/-- Build a JSON object from a list of bindings. -/
def jobj (fs : List (List Char × Json)) : Json :=
  Json.obj (fs.foldr (fun p t => JsonFields.cons p.1 p.2 t) JsonFields.nil)

/-- Shorthand for a JSON string built from a literal. -/
def jstr (s : String) : Json := Json.str (pstr s)

/-- Keys of a JSON object, in binding order. -/
def JsonFields.keys : JsonFields → List (List Char)
  | .nil => []
  | .cons k _ t => k :: t.keys

/-- Find the value bound to a key, preferring the latest binding, as the
Python dict built by `json.loads` does. -/
def JsonFields.find : JsonFields → List Char → Option Json
  | .nil, _ => none
  | .cons key v t, k =>
    match t.find k with
    | some w => some w
    | none => if key = k then some v else none

/-- Python `item.get(k, dflt)` on a dict. -/
def JsonFields.get (fs : JsonFields) (k : List Char) (dflt : Json) : Json :=
  (fs.find k).getD dflt

/-- Python truthiness of a JSON value. -/
def truthy : Json → Bool
  | .null => false
  | .bool b => b
  | .num n => n ≠ 0
  | .str s => s ≠ []
  | .arr .nil => false
  | .arr (.cons _ _) => true
  | .obj .nil => false
  | .obj (.cons _ _ _) => true

/-- The Python exceptions the embedded code can raise. -/
inductive PyErr where
  | typeError : PyErr
  | attributeError : PyErr
  | indexError : PyErr
deriving DecidableEq

/-- One per-clause record of the pipeline: the dict created by ingestion, with
the later annotation fields optional (`none` models an absent key). -/
structure Clause where
  id : List Char
  text : List Char
  page : Nat
  label : Option Json := none
  has_obligation : Option Json := none
  obligation_details : Option Json := none
deriving DecidableEq

/-- Placeholder clause used for guarded list lookups. -/
def dummyClause : Clause := ⟨[], [], 0, none, none, none⟩

/-- The identifying, never-mutated part of a clause record. -/
def skel (c : Clause) : List Char × List Char × Nat := (c.id, c.text, c.page)

/-! ## Ingestion (`app/ingestion/pdf_ingestor.py`)

`PDFIngestor.ingest` iterates over the document's pages; the PDF library's
`page.get_text("text")` is an external collaborator, so the model takes the
ordered list of page texts as input. -/

/-- The body of the inner loop of `PDFIngestor.ingest`: enumerate the segments
of one page (`i` is the running `enumerate` counter, `pn` the 0-based page
number), keep those with non-empty stripped text. -/
def segClauses (pn : Nat) : Nat → List (List Char) → List Clause
  | _, [] => []
  | i, seg :: rest =>
    (if pyStrip seg = [] then []
     else [{ id := mkId (pn + 1) (i + 1), text := pyStrip seg, page := pn + 1 }]) ++
    segClauses pn (i + 1) rest

/-- The outer loop of `PDFIngestor.ingest` over pages, `pn` the 0-based page
counter: split each page on `"\n\n"` and collect its clauses. -/
def pagesFrom : Nat → List (List Char) → List Clause
  | _, [] => []
  | pn, text :: rest => segClauses pn 0 (pySplitNN text) ++ pagesFrom (pn + 1) rest

/-- `PDFIngestor.ingest`: segment the pages of a document into clause records. -/
def PDFIngestor.ingest (pages : List (List Char)) : List Clause :=
  pagesFrom 0 pages

/-! ## Rule-based stages (`legal_classifier.py`, `obligation_extractor.py`) -/

/-- `LegalClassifier.classify`: keyword classification over the lowercased
clause text, writing `clause['label']` unconditionally. -/
def LegalClassifier.classify (clauses : List Clause) : List Clause :=
  clauses.map fun clause =>
    let text := pyLower clause.text
    if isSubstr (pstr "termination") text then
      { clause with label := some (jstr "Termination") }
    else if isSubstr (pstr "indemnify") text || isSubstr (pstr "indemnification") text then
      { clause with label := some (jstr "Indemnification") }
    else if isSubstr (pstr "confidentiality") text then
      { clause with label := some (jstr "Confidentiality") }
    else
      { clause with label := some (jstr "General") }

/-- `ObligationExtractor.extract`: `clause['has_obligation']` is set to whether
the lowercased text contains `"shall"` or `"must"`. -/
def ObligationExtractor.extract (clauses : List Clause) : List Clause :=
  clauses.map fun clause =>
    let text := pyLower clause.text
    if isSubstr (pstr "shall") text || isSubstr (pstr "must") text then
      { clause with has_obligation := some (Json.bool true) }
    else
      { clause with has_obligation := some (Json.bool false) }

/-! ## Model-backed stages (`gemini_classifier.py`, `gemini_extractor.py`) -/

/-- Python `for item in value:` on a decoded JSON value: arrays yield their
elements, dicts their keys, strings their characters; other values raise
`TypeError: not iterable`. -/
def jsonIterate : Json → Except PyErr (List Json)
  | .arr xs => .ok xs.toList
  | .obj fs => .ok (fs.keys.map Json.str)
  | .str s => .ok (s.map fun c => Json.str [c])
  | _ => .error .typeError

/-- Python `0 <= idx < len(...)` needs `idx` to be an integer (a `bool` is an
`int` in Python); any other operand raises `TypeError`. -/
def asIndex : Json → Except PyErr Int
  | .num n => .ok n
  | .bool b => .ok (if b then 1 else 0)
  | _ => .error .typeError

/-- The classification update loop of
`GeminiClassifier._parse_and_update_clauses`: each response item must be a
dict (`item.get` on anything else raises `AttributeError`); an in-range
integer `index` gets the returned `category` value written to its clause's
`label`, out-of-range indices are skipped.  Returns the clause list as
mutated so far together with the exception, if one was raised. -/
def applyItemsC (cs : List Clause) : List Json → List Clause × Option PyErr
  | [] => (cs, none)
  | item :: rest =>
    match item with
    | .obj fs =>
      let idx := fs.get (pstr "index") (Json.num (-1))
      let category := fs.get (pstr "category") (jstr "General")
      match asIndex idx with
      | .error e => (cs, some e)
      | .ok n =>
        if 0 ≤ n ∧ n < (cs.length : Int) then
          applyItemsC
            (cs.set n.toNat { cs.getD n.toNat dummyClause with label := some category })
            rest
        else
          applyItemsC cs rest
    | _ => (cs, some .attributeError)

/-- The `except` fallback of `GeminiClassifier._parse_and_update_clauses`:
every clause without a `label` key gets `"General"`. -/
def classifyFallback (cs : List Clause) : List Clause :=
  cs.map fun c => if c.label = none then { c with label := some (jstr "General") } else c

/-- `GeminiClassifier._parse_and_update_clauses` on one batch.  The decoded
response arrives as `Option Json` (`none` models `json.JSONDecodeError`,
which the `except (json.JSONDecodeError, KeyError, ValueError)` clause
catches); `AttributeError` and `TypeError` raised by the update loop are not
in that clause and escape. -/
def GeminiClassifier.parse_and_update_clauses (clauses : List Clause)
    (response : Option Json) : List Clause × Option PyErr :=
  match response with
  | none => (classifyFallback clauses, none)
  | some j =>
    match jsonIterate j with
    | .error e => (clauses, some e)
    | .ok items => applyItemsC clauses items

/-- The batching loop shared by `GeminiClassifier.classify` and
`GeminiExtractor.extract`: fuel-driven chunking of the clause list into
slices of `batch_size = 10`. -/
def chunksAux : Nat → List Clause → List (List Clause)
  | 0, _ => []
  | _, [] => []
  | fuel + 1, l => l.take 10 :: chunksAux fuel (l.drop 10)

/-- The batches `clauses[i:i + batch_size]` for `i = 0, 10, 20, ...`. -/
def chunks (l : List Clause) : List (List Clause) := chunksAux l.length l

/-- Run a per-batch step over consecutive batches (`b` is the batch number).
An exception aborts the loop; the clause list keeps the mutations applied up
to that point, with the remaining batches untouched. -/
def runBatches (step : Nat → List Clause → List Clause × Option PyErr) :
    Nat → List (List Clause) → List Clause × Option PyErr
  | _, [] => ([], none)
  | b, batch :: rest =>
    match step b batch with
    | (batch', some e) => (batch' ++ rest.flatten, some e)
    | (batch', none) =>
      match runBatches step (b + 1) rest with
      | (rest', err) => (batch' ++ rest', err)

/-- `GeminiClassifier.classify`: process the clause list in batches of 10; the
per-batch annotator response is an external input, given as a function from
the batch number to the decoded response. -/
def GeminiClassifier.classify (responses : Nat → Option Json)
    (clauses : List Clause) : List Clause × Option PyErr :=
  runBatches (fun b batch => GeminiClassifier.parse_and_update_clauses batch (responses b))
    0 (chunks clauses)

/-- The extraction update loop of
`GeminiExtractor._parse_and_update_clauses`: an in-range integer `index`
gets `has_obligation` overwritten with the returned value, and
`obligation_details` written only when both the returned `has_obligation`
and the returned details are truthy. -/
def applyItemsE (cs : List Clause) : List Json → List Clause × Option PyErr
  | [] => (cs, none)
  | item :: rest =>
    match item with
    | .obj fs =>
      let idx := fs.get (pstr "index") (Json.num (-1))
      let has_ob := fs.get (pstr "has_obligation") (Json.bool false)
      let details := fs.get (pstr "obligation_details") (Json.str [])
      match asIndex idx with
      | .error e => (cs, some e)
      | .ok n =>
        if 0 ≤ n ∧ n < (cs.length : Int) then
          let c := cs.getD n.toNat dummyClause
          applyItemsE
            (cs.set n.toNat
              { c with
                has_obligation := some has_ob
                obligation_details :=
                  if truthy has_ob && truthy details then some details
                  else c.obligation_details })
            rest
        else
          applyItemsE cs rest
    | _ => (cs, some .attributeError)

/-- The `except` fallback of `GeminiExtractor._parse_and_update_clauses`:
every clause without a `has_obligation` key gets `False`; the details field
is never touched. -/
def extractFallback (cs : List Clause) : List Clause :=
  cs.map fun c =>
    if c.has_obligation = none then { c with has_obligation := some (Json.bool false) } else c

/-- `GeminiExtractor._parse_and_update_clauses` on one batch, with the same
decode and exception conventions as the classification side. -/
def GeminiExtractor.parse_and_update_clauses (clauses : List Clause)
    (response : Option Json) : List Clause × Option PyErr :=
  match response with
  | none => (extractFallback clauses, none)
  | some j =>
    match jsonIterate j with
    | .error e => (clauses, some e)
    | .ok items => applyItemsE clauses items

/-- `GeminiExtractor.extract`: process the clause list in batches of 10. -/
def GeminiExtractor.extract (responses : Nat → Option Json)
    (clauses : List Clause) : List Clause × Option PyErr :=
  runBatches (fun b batch => GeminiExtractor.parse_and_update_clauses batch (responses b))
    0 (chunks clauses)

/-! ## Retrieval (`app/retrieval/faiss_retriever.py`)

The sentence-embedding model is an external collaborator; a retriever carries
it as a function from text to an integer vector.  `faiss.IndexFlatL2.search`
orders database entries by squared L2 distance to the query (ties by lower
position) and pads each result row with `-1` entries when `k` exceeds the
number of indexed vectors. -/

/-- Squared L2 distance between two vectors. -/
def sqDist (u v : List Int) : Int :=
  ((u.zip v).map fun p => (p.1 - p.2) ^ 2).sum

/-- State of a `FaissRetriever`: the embedding model, the optional built
index (`_index` starts as `None`), and the indexed clause list. -/
structure FaissRetriever where
  model : List Char → List Int
  flatIndex : Option (List (List Int))
  clauses : List Clause

/-- `FaissRetriever.__init__`: no index built yet, no clauses stored. -/
def FaissRetriever.init (model : List Char → List Int) : FaissRetriever :=
  ⟨model, none, []⟩

/-- `FaissRetriever.index`: store the clauses and build a flat L2 index over
the embeddings of their texts. -/
def FaissRetriever.index (r : FaissRetriever) (clauses : List Clause) : FaissRetriever :=
  { r with clauses := clauses, flatIndex := some (clauses.map fun c => r.model c.text) }

/-- One result row of `faiss.IndexFlatL2.search`: the positions of the `k`
nearest database vectors in ascending distance order, padded with `-1` when
fewer than `k` vectors are indexed. -/
def faissSearch (db : List (List Int)) (q : List Int) (k : Nat) : List Int :=
  let order := List.insertionSort
    (fun i j => sqDist (db.getD i []) q ≤ sqDist (db.getD j []) q)
    (List.range db.length)
  (order.take k).map Int.ofNat ++ List.replicate (k - db.length) (-1)

/-- Python list subscription `xs[i]` with an `int` index: negative indices
count from the end; anything out of range raises `IndexError`. -/
def pyGetItem (xs : List Clause) (i : Int) : Except PyErr Clause :=
  if 0 ≤ i ∧ i < (xs.length : Int) then .ok (xs.getD i.toNat dummyClause)
  else if -(xs.length : Int) ≤ i ∧ i < 0 then .ok (xs.getD (i + xs.length).toNat dummyClause)
  else .error .indexError

/-- `FaissRetriever.retrieve`: empty result when no index was built, else map
the search result row through `self.clauses[i]`. -/
def FaissRetriever.retrieve (r : FaissRetriever) (query : List Char) (k : Nat) :
    Except PyErr (List Clause) :=
  match r.flatIndex with
  | none => .ok []
  | some db => (faissSearch db (r.model query) k).mapM (pyGetItem r.clauses)

/-! ## Orchestration (`streamlit_app.py`, `process_document`)

The `try` block runs the model-backed stages; any exception escaping them is
caught and the whole clause list — including mutations already applied — is
re-annotated by the rule-based classifier and extractor.  The summarization
stage produces a separate artifact, never mutates the clause records, and no
claim concerns it, so it is left out of the model. -/

/-- The `except` handler of `process_document`: rule-based classification and
extraction over the clause list as it stands. -/
def degradedFallback (clauses : List Clause) : List Clause :=
  ObligationExtractor.extract (LegalClassifier.classify clauses)

/-- `process_document`'s model-backed path with its exception handler (the
two clause-mutating stages). -/
def process_document (respC respE : Nat → Option Json) (clauses : List Clause) :
    List Clause :=
  match GeminiClassifier.classify respC clauses with
  | (cs, some _) => degradedFallback cs
  | (cs, none) =>
    match GeminiExtractor.extract respE cs with
    | (cs2, some _) => degradedFallback cs2
    | (cs2, none) => cs2

/-! ## Specification-side definitions used by the theorems -/

/-- The fixed 9-category set of the Classification stage, as JSON strings. -/
def nineCategories : List Json :=
  [jstr "Termination", jstr "Indemnification", jstr "Confidentiality", jstr "Payment",
   jstr "Intellectual Property", jstr "Liability", jstr "Dispute Resolution",
   jstr "Term", jstr "General"]

/-- Strict source order on clauses: earlier page, or same page and earlier
ordinal, read off the clause identifier. -/
def clauseKeyLt (c c' : Clause) : Prop :=
  match parseId c.id, parseId c'.id with
  | some k, some k' => k.1 < k'.1 ∨ (k.1 = k'.1 ∧ k.2 < k'.2)
  | _, _ => False

/-- The batch position an extraction response item addresses (with the `-1`
default of `item.get("index", -1)` for items without a usable index). -/
def keyOf (item : Json) : Int :=
  match item with
  | .obj fs =>
    match asIndex (fs.get (pstr "index") (Json.num (-1))) with
    | .ok n => n
    | .error _ => -1
  | _ => -1

/-- The effect of a single extraction response item on the clause it
addresses. -/
def updClause (c : Clause) (item : Json) : Clause :=
  match item with
  | .obj fs =>
    let has_ob := fs.get (pstr "has_obligation") (Json.bool false)
    let details := fs.get (pstr "obligation_details") (Json.str [])
    { c with
      has_obligation := some has_ob
      obligation_details :=
        if truthy has_ob && truthy details then some details else c.obligation_details }
  | _ => c

/-- Page 1 of the specification's 2-page scenario document. -/
def scenarioPage1 : List Char :=
  pstr "This Agreement shall terminate upon 30 days notice.\n\nConfidential information must not be disclosed."

/-- Page 2 of the specification's 2-page scenario document. -/
def scenarioPage2 : List Char := pstr "General terms apply."

/-- The clauses the Segmenter yields on the scenario document. -/
def scenarioClauses : List Clause := PDFIngestor.ingest [scenarioPage1, scenarioPage2]

/-- A concrete unannotated clause used by witnesses and counterexamples. -/
def cAlpha : Clause := { id := pstr "a", text := pstr "alpha", page := 1 }

/-- A second concrete unannotated clause. -/
def cBeta : Clause := { id := pstr "b", text := pstr "beta", page := 1 }

/-- A constant embedding model used by the concrete retrieval evaluations. -/
def constEmbed : List Char → List Int := fun _ => [0]

/-! ## Supporting lemmas -/

theorem digitChar_isDigit {d : Nat} (h : d < 10) : (digitChar d).isDigit = true := by
  interval_cases d <;> decide

theorem digitChar_toNat {d : Nat} (h : d < 10) : (digitChar d).toNat = 48 + d := by
  interval_cases d <;> decide

theorem toDecAux_ne_nil : ∀ fuel n, n < fuel → toDecAux fuel n ≠ [] := by
  intro fuel
  induction fuel with
  | zero => intro n h; omega
  | succ f ih =>
    intro n _
    by_cases h10 : n < 10 <;> simp [toDecAux, h10]

theorem toDecAux_digits : ∀ fuel n, n < fuel → ∀ c ∈ toDecAux fuel n, c.isDigit = true := by
  intro fuel
  induction fuel with
  | zero => intro n h; omega
  | succ f ih =>
    intro n hn c hc
    by_cases h10 : n < 10
    · simp [toDecAux, h10] at hc
      exact hc ▸ digitChar_isDigit h10
    · simp [toDecAux, h10] at hc
      rcases hc with hc | hc
      · have hdiv : n / 10 < n := Nat.div_lt_self (by omega) (by omega)
        exact ih (n / 10) (by omega) c hc
      · exact hc ▸ digitChar_isDigit (Nat.mod_lt n (by omega))

theorem decVal_append_digit (ds : List Char) (c : Char) :
    decVal (ds ++ [c]) = 10 * decVal ds + (c.toNat - 48) := by
  simp [decVal, List.foldl_append]

theorem decVal_toDecAux : ∀ fuel n, n < fuel → decVal (toDecAux fuel n) = n := by
  intro fuel
  induction fuel with
  | zero => intro n h; omega
  | succ f ih =>
    intro n hn
    by_cases h10 : n < 10
    · simp [toDecAux, h10, decVal]
      rw [digitChar_toNat h10]
      omega
    · have hdiv : n / 10 < n := Nat.div_lt_self (by omega) (by omega)
      have hmod := Nat.div_add_mod n 10
      simp only [toDecAux, h10, if_false]
      rw [decVal_append_digit, ih (n / 10) (by omega), digitChar_toNat (Nat.mod_lt n (by omega))]
      omega

theorem toDec_ne_nil (n : Nat) : toDec n ≠ [] := toDecAux_ne_nil (n + 1) n (Nat.lt_succ_self n)

theorem toDec_digits (n : Nat) : ∀ c ∈ toDec n, c.isDigit = true :=
  toDecAux_digits (n + 1) n (Nat.lt_succ_self n)

theorem decVal_toDec (n : Nat) : decVal (toDec n) = n :=
  decVal_toDecAux (n + 1) n (Nat.lt_succ_self n)

theorem takeWhile_app {α : Type} (p : α → Bool) :
    ∀ (xs : List α) (y : α) (ys : List α), (∀ a ∈ xs, p a = true) → p y = false →
      (xs ++ y :: ys).takeWhile p = xs := by
  intro xs
  induction xs with
  | nil => intro y ys _ hy; simp [List.takeWhile_cons, hy]
  | cons x t ih =>
    intro y ys hall hy
    have hx : p x = true := hall x (List.mem_cons_self x t)
    simp only [List.cons_append, List.takeWhile_cons, hx, if_true]
    rw [ih y ys (fun a ha => hall a (List.mem_cons_of_mem x ha)) hy]

theorem dropWhile_app {α : Type} (p : α → Bool) :
    ∀ (xs : List α) (y : α) (ys : List α), (∀ a ∈ xs, p a = true) → p y = false →
      (xs ++ y :: ys).dropWhile p = y :: ys := by
  intro xs
  induction xs with
  | nil => intro y ys _ hy; simp [List.dropWhile_cons, hy]
  | cons x t ih =>
    intro y ys hall hy
    have hx : p x = true := hall x (List.mem_cons_self x t)
    simp only [List.cons_append, List.dropWhile_cons, hx, if_true]
    exact ih y ys (fun a ha => hall a (List.mem_cons_of_mem x ha)) hy

theorem mkId_cons (p i : Nat) :
    mkId p i =
      'p' :: 'a' :: 'g' :: 'e' :: '_' ::
        (toDec p ++ ('_' :: 'c' :: 'l' :: 'a' :: 'u' :: 's' :: 'e' :: '_' :: toDec i)) := by
  rw [mkId, List.append_assoc, List.append_assoc]
  rfl

theorem parseId_mkId (p i : Nat) : parseId (mkId p i) = some (p, i) := by
  rw [mkId_cons]
  have hd : (toDec p ++ ('_' :: 'c' :: 'l' :: 'a' :: 'u' :: 's' :: 'e' :: '_' :: toDec i)).dropWhile Char.isDigit
      = '_' :: 'c' :: 'l' :: 'a' :: 'u' :: 's' :: 'e' :: '_' :: toDec i :=
    dropWhile_app Char.isDigit (toDec p) '_' _ (toDec_digits p) (by decide)
  have ht : (toDec p ++ ('_' :: 'c' :: 'l' :: 'a' :: 'u' :: 's' :: 'e' :: '_' :: toDec i)).takeWhile Char.isDigit
      = toDec p :=
    takeWhile_app Char.isDigit (toDec p) '_' _ (toDec_digits p) (by decide)
  simp only [parseId, hd, ht]
  rw [if_pos]
  · rw [decVal_toDec, decVal_toDec]
  · exact ⟨toDec_ne_nil p, toDec_ne_nil i, List.all_eq_true.mpr (toDec_digits i)⟩

theorem dropWhile_head_false {α : Type} (p : α → Bool) :
    ∀ (l : List α) (a : α), (l.dropWhile p).head? = some a → p a = false := by
  intro l
  induction l with
  | nil => simp
  | cons x t ih =>
    intro a h
    by_cases hx : p x = true
    · rw [List.dropWhile_cons, if_pos hx] at h
      exact ih a h
    · rw [List.dropWhile_cons, if_neg hx] at h
      simp only [List.head?_cons, Option.some.injEq] at h
      subst h
      simpa using hx

theorem dropWhile_getLast? {α : Type} (p : α → Bool) :
    ∀ l : List α, l.dropWhile p ≠ [] → (l.dropWhile p).getLast? = l.getLast? := by
  intro l
  induction l with
  | nil => simp
  | cons x t ih =>
    intro hne
    by_cases hx : p x = true
    · rw [List.dropWhile_cons, if_pos hx] at hne ⊢
      cases t with
      | nil => simp at hne
      | cons y t2 => rw [ih hne, List.getLast?_cons_cons]
    · rw [List.dropWhile_cons, if_neg hx]

theorem dropWhile_id_of_head {α : Type} (p : α → Bool) (l : List α)
    (h : ∀ a, l.head? = some a → p a = false) : l.dropWhile p = l := by
  cases l with
  | nil => rfl
  | cons x t => rw [List.dropWhile_cons, if_neg (by simp [h x rfl])]

theorem pyStrip_head (s : List Char) :
    ∀ a, (pyStrip s).head? = some a → isPySpace a = false := by
  intro a h
  unfold pyStrip at h
  rw [List.head?_reverse] at h
  by_cases hw : ((s.dropWhile isPySpace).reverse.dropWhile isPySpace) = []
  · rw [hw] at h; simp at h
  · rw [dropWhile_getLast? isPySpace _ hw, List.getLast?_reverse] at h
    exact dropWhile_head_false isPySpace s a h

theorem pyStrip_last (s : List Char) :
    ∀ a, (pyStrip s).getLast? = some a → isPySpace a = false := by
  intro a h
  unfold pyStrip at h
  rw [List.getLast?_reverse] at h
  exact dropWhile_head_false isPySpace _ a h

theorem pyStrip_of_ends (l : List Char)
    (h1 : ∀ a, l.head? = some a → isPySpace a = false)
    (h2 : ∀ a, l.getLast? = some a → isPySpace a = false) : pyStrip l = l := by
  unfold pyStrip
  rw [dropWhile_id_of_head isPySpace l h1]
  rw [dropWhile_id_of_head isPySpace l.reverse (by intro a ha; rw [List.head?_reverse] at ha; exact h2 a ha)]
  exact List.reverse_reverse l

theorem pyStrip_idem (s : List Char) : pyStrip (pyStrip s) = pyStrip s :=
  pyStrip_of_ends (pyStrip s) (pyStrip_head s) (pyStrip_last s)

theorem mem_segClauses :
    ∀ (segs : List (List Char)) (pn i : Nat) (c : Clause), c ∈ segClauses pn i segs →
      c.page = pn + 1 ∧ (∃ o, i + 1 ≤ o ∧ parseId c.id = some (pn + 1, o)) ∧
        pyStrip c.text = c.text ∧ c.text ≠ [] := by
  intro segs
  induction segs with
  | nil => intro pn i c hc; simp [segClauses] at hc
  | cons seg rest ih =>
    intro pn i c hc
    simp only [segClauses] at hc
    rw [List.mem_append] at hc
    rcases hc with hc | hc
    · by_cases hs : pyStrip seg = []
      · simp [hs] at hc
      · simp only [hs, if_neg, ite_false, List.mem_singleton] at hc
        subst hc
        exact ⟨rfl, ⟨i + 1, le_refl _, parseId_mkId (pn + 1) (i + 1)⟩, pyStrip_idem seg, hs⟩
    · obtain ⟨h1, ⟨o, ho, hp⟩, h3, h4⟩ := ih pn (i + 1) c hc
      exact ⟨h1, ⟨o, by omega, hp⟩, h3, h4⟩

theorem pairwise_segClauses :
    ∀ (segs : List (List Char)) (pn i : Nat), List.Pairwise clauseKeyLt (segClauses pn i segs) := by
  intro segs
  induction segs with
  | nil => intro pn i; simp [segClauses]
  | cons seg rest ih =>
    intro pn i
    simp only [segClauses]
    rw [List.pairwise_append]
    refine ⟨?_, ih pn (i + 1), ?_⟩
    · by_cases hs : pyStrip seg = [] <;> simp [hs]
    · intro a ha b hb
      by_cases hs : pyStrip seg = []
      · simp [hs] at ha
      · simp only [hs, ite_false, List.mem_singleton] at ha
        subst ha
        obtain ⟨_, ⟨o, ho, hp⟩, _, _⟩ := mem_segClauses rest pn (i + 1) b hb
        simp only [clauseKeyLt, parseId_mkId, hp]
        exact Or.inr ⟨trivial, by omega⟩

theorem mem_pagesFrom :
    ∀ (pages : List (List Char)) (pn : Nat) (c : Clause), c ∈ pagesFrom pn pages →
      pn + 1 ≤ c.page ∧ (∃ o, parseId c.id = some (c.page, o)) ∧
        pyStrip c.text = c.text ∧ c.text ≠ [] := by
  intro pages
  induction pages with
  | nil => intro pn c hc; simp [pagesFrom] at hc
  | cons text rest ih =>
    intro pn c hc
    simp only [pagesFrom] at hc
    rw [List.mem_append] at hc
    rcases hc with hc | hc
    · obtain ⟨h1, ⟨o, _, hp⟩, h3, h4⟩ := mem_segClauses (pySplitNN text) pn 0 c hc
      exact ⟨by omega, ⟨o, h1 ▸ hp⟩, h3, h4⟩
    · obtain ⟨h1, h2, h3, h4⟩ := ih (pn + 1) c hc
      exact ⟨by omega, h2, h3, h4⟩

theorem pairwise_pagesFrom :
    ∀ (pages : List (List Char)) (pn : Nat), List.Pairwise clauseKeyLt (pagesFrom pn pages) := by
  intro pages
  induction pages with
  | nil => intro pn; simp [pagesFrom]
  | cons text rest ih =>
    intro pn
    simp only [pagesFrom]
    rw [List.pairwise_append]
    refine ⟨pairwise_segClauses (pySplitNN text) pn 0, ih (pn + 1), ?_⟩
    intro a ha b hb
    obtain ⟨hpa, ⟨oa, _, hia⟩, _, _⟩ := mem_segClauses (pySplitNN text) pn 0 a ha
    obtain ⟨hpb, ⟨ob, hib⟩, _, _⟩ := mem_pagesFrom rest (pn + 1) b hb
    simp only [clauseKeyLt, hia, hib]
    exact Or.inl (by omega)

/-- Claim C8: over any ordered page sequence, ingestion yields clauses in
strict source order (earlier page first, then within-page ordinal order, as
recorded in the identifier), with pairwise distinct identifiers, and every
produced clause has non-empty, whitespace-trimmed text whose identifier
parses back to its page number. -/
theorem C8_ingest_segmentation (pages : List (List Char)) :
    List.Pairwise (fun c c' => clauseKeyLt c c' ∧ c.id ≠ c'.id) (PDFIngestor.ingest pages) ∧
    ∀ c ∈ PDFIngestor.ingest pages,
      (∃ o, parseId c.id = some (c.page, o)) ∧ pyStrip c.text = c.text ∧ c.text ≠ [] := by
  constructor
  · refine List.Pairwise.imp_of_mem ?_ (pairwise_pagesFrom pages 0)
    intro a b ha hb hR
    refine ⟨hR, ?_⟩
    intro he
    obtain ⟨_, ⟨oa, hia⟩, _, _⟩ := mem_pagesFrom pages 0 a ha
    obtain ⟨_, ⟨ob, hib⟩, _, _⟩ := mem_pagesFrom pages 0 b hb
    rw [he] at hia
    rw [hia] at hib
    simp only [Option.some.injEq, Prod.mk.injEq] at hib
    simp only [clauseKeyLt, hia, he, hib.1, hib.2] at hR
    omega
  · intro c hc
    obtain ⟨_, h2, h3, h4⟩ := mem_pagesFrom pages 0 c hc
    exact ⟨h2, h3, h4⟩

theorem chunksAux_flatten : ∀ (fuel : Nat) (l : List Clause), l.length ≤ fuel →
    (chunksAux fuel l).flatten = l := by
  intro fuel
  induction fuel with
  | zero =>
    intro l h
    have : l = [] := List.eq_nil_of_length_eq_zero (by omega)
    subst this
    rfl
  | succ f ih =>
    intro l h
    cases l with
    | nil => rfl
    | cons x t =>
      simp only [chunksAux, List.flatten_cons]
      have hlen : ((x :: t).drop 10).length ≤ f := by
        rw [List.length_drop]
        omega
      rw [ih ((x :: t).drop 10) hlen]
      exact List.take_append_drop 10 (x :: t)

theorem chunks_flatten (l : List Clause) : (chunks l).flatten = l :=
  chunksAux_flatten l.length l (le_refl _)

theorem list_set_getD {α : Type} : ∀ (l : List α) (n : Nat) (d : α),
    l.set n (l.getD n d) = l := by
  intro l
  induction l with
  | nil => intro n d; rfl
  | cons x t ih =>
    intro n d
    cases n with
    | zero => simp
    | succ m => simp only [List.getD_cons_succ, List.set_cons_succ]; rw [ih m d]

theorem map_skel_set (cs : List Clause) (n : Nat) (c : Clause)
    (h : skel c = skel (cs.getD n dummyClause)) : (cs.set n c).map skel = cs.map skel := by
  rw [List.map_set, h, ← List.getD_map cs dummyClause skel]
  exact list_set_getD (cs.map skel) n (skel dummyClause)

theorem map_skel_map {f : Clause → Clause} (h : ∀ c, skel (f c) = skel c) (cs : List Clause) :
    (cs.map f).map skel = cs.map skel := by
  rw [List.map_map]
  exact List.map_congr_left (fun c _ => h c)

theorem applyItemsC_skel : ∀ (items : List Json) (cs : List Clause),
    ((applyItemsC cs items).1).map skel = cs.map skel := by
  intro items
  induction items with
  | nil => intro cs; rfl
  | cons item rest ih =>
    intro cs
    cases item with
    | obj fs =>
      simp only [applyItemsC]
      cases hA : asIndex (fs.get (pstr "index") (Json.num (-1))) with
      | error e => rfl
      | ok n =>
        dsimp only
        by_cases hin : 0 ≤ n ∧ n < (cs.length : Int)
        · rw [if_pos hin, ih]
          exact map_skel_set cs n.toNat _ rfl
        · rw [if_neg hin]
          exact ih cs
    | null => rfl
    | bool b => rfl
    | num n => rfl
    | str s => rfl
    | arr xs => rfl

theorem applyItemsE_skel : ∀ (items : List Json) (cs : List Clause),
    ((applyItemsE cs items).1).map skel = cs.map skel := by
  intro items
  induction items with
  | nil => intro cs; rfl
  | cons item rest ih =>
    intro cs
    cases item with
    | obj fs =>
      simp only [applyItemsE]
      cases hA : asIndex (fs.get (pstr "index") (Json.num (-1))) with
      | error e => rfl
      | ok n =>
        dsimp only
        by_cases hin : 0 ≤ n ∧ n < (cs.length : Int)
        · rw [if_pos hin, ih]
          exact map_skel_set cs n.toNat _ rfl
        · rw [if_neg hin]
          exact ih cs
    | null => rfl
    | bool b => rfl
    | num n => rfl
    | str s => rfl
    | arr xs => rfl

theorem classifyFallback_skel (cs : List Clause) :
    (classifyFallback cs).map skel = cs.map skel := by
  unfold classifyFallback
  apply map_skel_map
  intro c
  by_cases hc : c.label = none <;> simp [hc, skel]

theorem extractFallback_skel (cs : List Clause) :
    (extractFallback cs).map skel = cs.map skel := by
  unfold extractFallback
  apply map_skel_map
  intro c
  by_cases hc : c.has_obligation = none <;> simp [hc, skel]

theorem runBatches_skel (step : Nat → List Clause → List Clause × Option PyErr)
    (h : ∀ b batch, ((step b batch).1).map skel = batch.map skel) :
    ∀ (bs : List (List Clause)) (b : Nat),
      ((runBatches step b bs).1).map skel = bs.flatten.map skel := by
  intro bs
  induction bs with
  | nil => intro b; rfl
  | cons batch rest ih =>
    intro b
    have hstep := h b batch
    simp only [runBatches]
    cases hs : step b batch with
    | mk batch' err =>
      rw [hs] at hstep
      cases err with
      | some e => simp only [List.flatten_cons, List.map_append, hstep]
      | none =>
        have ihb := ih (b + 1)
        cases hr : runBatches step (b + 1) rest with
        | mk rest' err2 =>
          rw [hr] at ihb
          simp only [List.flatten_cons, List.map_append, hstep, ihb]

theorem parse_update_C_skel (batch : List Clause) (resp : Option Json) :
    ((GeminiClassifier.parse_and_update_clauses batch resp).1).map skel = batch.map skel := by
  cases resp with
  | none => exact classifyFallback_skel batch
  | some j =>
    simp only [GeminiClassifier.parse_and_update_clauses]
    cases hj : jsonIterate j with
    | error e => rfl
    | ok items => exact applyItemsC_skel items batch

theorem parse_update_E_skel (batch : List Clause) (resp : Option Json) :
    ((GeminiExtractor.parse_and_update_clauses batch resp).1).map skel = batch.map skel := by
  cases resp with
  | none => exact extractFallback_skel batch
  | some j =>
    simp only [GeminiExtractor.parse_and_update_clauses]
    cases hj : jsonIterate j with
    | error e => rfl
    | ok items => exact applyItemsE_skel items batch

theorem LegalClassifier_skel (cs : List Clause) :
    (LegalClassifier.classify cs).map skel = cs.map skel := by
  unfold LegalClassifier.classify
  apply map_skel_map
  intro c
  dsimp only
  split_ifs <;> rfl

theorem ObligationExtractor_skel (cs : List Clause) :
    (ObligationExtractor.extract cs).map skel = cs.map skel := by
  unfold ObligationExtractor.extract
  apply map_skel_map
  intro c
  dsimp only
  split_ifs <;> rfl

theorem GeminiClassifier_classify_skel (resp : Nat → Option Json) (cs : List Clause) :
    ((GeminiClassifier.classify resp cs).1).map skel = cs.map skel := by
  unfold GeminiClassifier.classify
  rw [runBatches_skel _ (fun b batch => parse_update_C_skel batch (resp b)) (chunks cs) 0]
  rw [chunks_flatten]

theorem GeminiExtractor_extract_skel (resp : Nat → Option Json) (cs : List Clause) :
    ((GeminiExtractor.extract resp cs).1).map skel = cs.map skel := by
  unfold GeminiExtractor.extract
  rw [runBatches_skel _ (fun b batch => parse_update_E_skel batch (resp b)) (chunks cs) 0]
  rw [chunks_flatten]

/-! ## Claim theorems -/

/-- Claim C9: every clause-mutating stage — rule-based and model-backed
classification and extraction — keeps the clause sequence's length, order and
identifying fields (`id`, `text`, `page`) unchanged, whether or not the
model-backed run raised; only annotation fields are mutated. -/
theorem C9_stages_preserve_clause_skeletons :
    (∀ cs : List Clause, (LegalClassifier.classify cs).map skel = cs.map skel) ∧
    (∀ cs : List Clause, (ObligationExtractor.extract cs).map skel = cs.map skel) ∧
    (∀ (resp : Nat → Option Json) (cs : List Clause),
      ((GeminiClassifier.classify resp cs).1).map skel = cs.map skel) ∧
    (∀ (resp : Nat → Option Json) (cs : List Clause),
      ((GeminiExtractor.extract resp cs).1).map skel = cs.map skel) :=
  ⟨LegalClassifier_skel, ObligationExtractor_skel,
    GeminiClassifier_classify_skel, GeminiExtractor_extract_skel⟩

/-- Claim C7: before any index is built (`_index` still `None`), `retrieve`
returns an empty list for every query and every `k`, raising nothing. -/
theorem C7_retrieve_before_index_empty (model : List Char → List Int)
    (query : List Char) (k : Nat) :
    (FaissRetriever.init model).retrieve query k = .ok [] := rfl

theorem runBatches_fallback (step : Nat → List Clause → List Clause × Option PyErr)
    (g : List Clause → List Clause)
    (h : ∀ b batch, step b batch = (g batch, none))
    (happ : ∀ l1 l2, g (l1 ++ l2) = g l1 ++ g l2) (hnil : g [] = []) :
    ∀ (bs : List (List Clause)) (b : Nat), runBatches step b bs = (g bs.flatten, none) := by
  intro bs
  induction bs with
  | nil => intro b; simp [runBatches, hnil]
  | cons batch rest ih =>
    intro b
    simp only [runBatches, h b batch, ih (b + 1), List.flatten_cons, happ]

theorem classifyFallback_append (l1 l2 : List Clause) :
    classifyFallback (l1 ++ l2) = classifyFallback l1 ++ classifyFallback l2 := by
  unfold classifyFallback
  exact List.map_append _ l1 l2

/-- Claim C1 (amended): after Classification, a batch whose response failed
JSON decoding has every clause labeled, with previously-unlabeled clauses
forced to `"General"` (first conjunct: a run all of whose batch responses
fail decoding ends with exactly that labeling and no exception); but a
successfully parsed response item assigns its returned category value to the
addressed clause verbatim, without validation against the 9-category set,
and clauses it does not address are left untouched (second conjunct). -/
theorem C1_classification_label_policy :
    (∀ (resp : Nat → Option Json) (cs : List Clause), (∀ b, resp b = none) →
      GeminiClassifier.classify resp cs
        = (cs.map fun c => if c.label = none then { c with label := some (jstr "General") } else c,
           none)) ∧
    (∀ (cs : List Clause) (idx : Nat) (cat : Json), idx < cs.length →
      GeminiClassifier.parse_and_update_clauses cs
          (some (jarr [jobj [(pstr "index", Json.num idx), (pstr "category", cat)]]))
        = (cs.set idx { cs.getD idx dummyClause with label := some cat }, none)) := by
  constructor
  · intro resp cs hresp
    have hstep : ∀ b batch,
        GeminiClassifier.parse_and_update_clauses batch (resp b) = (classifyFallback batch, none) := by
      intro b batch
      rw [hresp b]
      rfl
    unfold GeminiClassifier.classify
    rw [runBatches_fallback _ classifyFallback hstep classifyFallback_append rfl (chunks cs) 0]
    rw [chunks_flatten]
    rfl
  · intro cs idx cat hlt
    have hred : GeminiClassifier.parse_and_update_clauses cs
        (some (jarr [jobj [(pstr "index", Json.num idx), (pstr "category", cat)]]))
        = if 0 ≤ (idx : Int) ∧ (idx : Int) < (cs.length : Int)
          then applyItemsC
            (cs.set (idx : Int).toNat
              { cs.getD (idx : Int).toNat dummyClause with label := some cat }) []
          else applyItemsC cs [] := rfl
    rw [hred, if_pos ⟨Int.ofNat_nonneg idx, by exact_mod_cast hlt⟩]
    simp only [applyItemsC, Int.toNat_ofNat]

/-- Witness for C1: a one-clause run whose only response fails decoding ends
with the clause labeled `"General"`; a successful response assigns the
returned category verbatim. -/
theorem C1_classification_label_policy_witness :
    GeminiClassifier.classify (fun _ => none) [cAlpha]
        = ([{ cAlpha with label := some (jstr "General") }], none) ∧
    GeminiClassifier.parse_and_update_clauses [cAlpha]
        (some (jarr [jobj [(pstr "index", Json.num 0), (pstr "category", jstr "Payment")]]))
      = ([{ cAlpha with label := some (jstr "Payment") }], none) := by
  constructor
  · exact (C1_classification_label_policy.1 (fun _ => none) [cAlpha] (fun b => rfl)).trans (by decide)
  · exact (C1_classification_label_policy.2 [cAlpha] 0 (jstr "Payment") (by decide)).trans (by decide)

/-- Claim C1 is false as stated: with one successfully parsed batch response
whose only item returns the out-of-set category `"Banana"` for clause 0,
Classification completes with clause 0 labeled `"Banana"` — not a member of
the fixed 9-category set — and clause 1 still unlabeled, not forced to
`"General"`. -/
theorem C1_counterexample :
    GeminiClassifier.classify
        (fun b => if b = 0
          then some (jarr [jobj [(pstr "index", Json.num 0), (pstr "category", jstr "Banana")]])
          else none)
        [cAlpha, cBeta]
      = ([{ cAlpha with label := some (jstr "Banana") }, cBeta], none) ∧
    jstr "Banana" ∉ nineCategories ∧
    cBeta.label = none := by decide

/-- Claim C5: re-running the classification parse-and-update step with a
response that fails JSON decoding over clauses that all already carry a
label returns the clause list completely unchanged and raises nothing. -/
theorem C5_relabel_noop_on_parse_failure (cs : List Clause)
    (h : ∀ c ∈ cs, c.label ≠ none) :
    GeminiClassifier.parse_and_update_clauses cs none = (cs, none) := by
  show (classifyFallback cs, none) = (cs, none)
  have hid : classifyFallback cs = cs := by
    unfold classifyFallback
    have : ∀ c ∈ cs,
        (if c.label = none then { c with label := some (jstr "General") } else c) = c :=
      fun c hc => if_neg (h c hc)
    rw [List.map_congr_left this]
    exact List.map_id cs
  rw [hid]

/-- Witness for C5: an already-labeled clause passes through the failing
parse step untouched. -/
theorem C5_relabel_noop_on_parse_failure_witness :
    GeminiClassifier.parse_and_update_clauses
        [{ cAlpha with label := some (jstr "Payment") }] none
      = ([{ cAlpha with label := some (jstr "Payment") }], none) :=
  C5_relabel_noop_on_parse_failure [{ cAlpha with label := some (jstr "Payment") }] (by decide)

/-- Claim C2: the `except (json.JSONDecodeError, KeyError, ValueError)`
clause catches only decode failures.  A decoded value of the wrong shape
escapes to the caller: a (non-empty) JSON object raises `AttributeError`
(iteration yields key strings, and `str.get` does not exist), as does an
array of strings; an item whose `index` is not an integer raises `TypeError`
at the range comparison; the extraction side behaves identically.  Only an
undecodable response (last conjunct) is caught and triggers the default-field
policy. -/
theorem C2_uncaught_shape_errors :
    GeminiClassifier.parse_and_update_clauses [cAlpha] (some (jobj [(pstr "a", Json.num 0)]))
      = ([cAlpha], some PyErr.attributeError) ∧
    GeminiClassifier.parse_and_update_clauses [cAlpha] (some (jarr [jstr "x"]))
      = ([cAlpha], some PyErr.attributeError) ∧
    GeminiClassifier.parse_and_update_clauses [cAlpha]
        (some (jarr [jobj [(pstr "index", jstr "0"), (pstr "category", jstr "Term")]]))
      = ([cAlpha], some PyErr.typeError) ∧
    GeminiExtractor.parse_and_update_clauses [cAlpha] (some (jobj [(pstr "a", Json.num 0)]))
      = ([cAlpha], some PyErr.attributeError) ∧
    GeminiClassifier.parse_and_update_clauses [cAlpha] none
      = ([{ cAlpha with label := some (jstr "General") }], none) := by decide

/-- Claim C3 (amended): on the scenario document the Segmenter yields exactly
3 clauses with the expected texts, and rule-based Extraction sets
`has_obligation` true, true, false as claimed; but rule-based Classification
labels all three clauses `"General"`, because its keyword `"termination"`
does not occur in "…shall terminate…" and `"confidentiality"` does not occur
in "Confidential information…". -/
theorem C3_scenario_actual :
    scenarioClauses.length = 3 ∧
    scenarioClauses.map Clause.text =
      [pstr "This Agreement shall terminate upon 30 days notice.",
       pstr "Confidential information must not be disclosed.",
       pstr "General terms apply."] ∧
    (LegalClassifier.classify scenarioClauses).map Clause.label
      = [some (jstr "General"), some (jstr "General"), some (jstr "General")] ∧
    (ObligationExtractor.extract (LegalClassifier.classify scenarioClauses)).map
        Clause.has_obligation
      = [some (Json.bool true), some (Json.bool true), some (Json.bool false)] := by decide

/-- Claim C3 is false as stated: the rule-based labels on the scenario
document are not Termination / Confidentiality / General. -/
theorem C3_counterexample :
    (LegalClassifier.classify scenarioClauses).map Clause.label
      ≠ [some (jstr "Termination"), some (jstr "Confidentiality"), some (jstr "General")] := by
  decide

/-- Claim C4: retrieving with `k = 2` from an index over a single clause
returns two entries referencing that clause twice — `faiss` pads the missing
neighbor with index `-1`, and Python's `clauses[-1]` wraps around to the last
stored clause — contradicting "at most n clauses with no duplicate
references". -/
theorem C4_padding_duplicates :
    ((FaissRetriever.init constEmbed).index [cAlpha]).retrieve (pstr "q") 2
      = .ok [cAlpha, cAlpha] ∧ ¬ [cAlpha, cAlpha].Nodup := by
  exact ⟨rfl, by decide⟩

/-- Claim C6 (amended): the degraded rule-based substitute recomputes `label`
and `has_obligation` for every clause from its text alone; annotations
already present — including those obtained from prior successful model
batches — do not influence and do not survive the overwrite (the rule-based
annotations are a function of the clause texts only). -/
theorem C6_degraded_fallback_text_determined :
    ∀ cs1 cs2 : List Clause, cs1.map Clause.text = cs2.map Clause.text →
      (LegalClassifier.classify cs1).map Clause.label
        = (LegalClassifier.classify cs2).map Clause.label ∧
      (ObligationExtractor.extract cs1).map Clause.has_obligation
        = (ObligationExtractor.extract cs2).map Clause.has_obligation := by
  have key1 : ∀ cs : List Clause, (LegalClassifier.classify cs).map Clause.label
      = (cs.map Clause.text).map (fun t =>
          if isSubstr (pstr "termination") (pyLower t) then some (jstr "Termination")
          else if isSubstr (pstr "indemnify") (pyLower t)
              || isSubstr (pstr "indemnification") (pyLower t) then some (jstr "Indemnification")
          else if isSubstr (pstr "confidentiality") (pyLower t) then some (jstr "Confidentiality")
          else some (jstr "General")) := by
    intro cs
    unfold LegalClassifier.classify
    rw [List.map_map, List.map_map]
    apply List.map_congr_left
    intro c _
    dsimp only [Function.comp]
    split_ifs <;> rfl
  have key2 : ∀ cs : List Clause, (ObligationExtractor.extract cs).map Clause.has_obligation
      = (cs.map Clause.text).map (fun t =>
          if isSubstr (pstr "shall") (pyLower t) || isSubstr (pstr "must") (pyLower t)
          then some (Json.bool true) else some (Json.bool false)) := by
    intro cs
    unfold ObligationExtractor.extract
    rw [List.map_map, List.map_map]
    apply List.map_congr_left
    intro c _
    dsimp only [Function.comp]
    split_ifs <;> rfl
  intro cs1 cs2 h
  rw [key1 cs1, key1 cs2, key2 cs1, key2 cs2, h]
  exact ⟨rfl, rfl⟩

/-- Witness for C6 (amended): a clause already labeled `"Payment"` and the
same clause unannotated get identical rule-based annotations. -/
theorem C6_degraded_fallback_text_determined_witness :
    (LegalClassifier.classify [{ cAlpha with label := some (jstr "Payment") }]).map Clause.label
      = (LegalClassifier.classify [cAlpha]).map Clause.label ∧
    (ObligationExtractor.extract [{ cAlpha with label := some (jstr "Payment") }]).map
        Clause.has_obligation
      = (ObligationExtractor.extract [cAlpha]).map Clause.has_obligation :=
  C6_degraded_fallback_text_determined
    [{ cAlpha with label := some (jstr "Payment") }] [cAlpha] (by decide)

/-- Claim C6 is false as stated: an 11-clause run whose first batch response
successfully labels clause 0 `"Payment"` and whose second batch response
decodes to a non-iterable value raises `TypeError` mid-run; the orchestrator's
handler then reruns the rule-based classifier over all clauses, and the label
obtained from the prior successful batch is overwritten to `"General"`, not
preserved. -/
theorem C6_counterexample :
    (GeminiClassifier.classify
        (fun b => if b = 0
          then some (jarr [jobj [(pstr "index", Json.num 0), (pstr "category", jstr "Payment")]])
          else some Json.null)
        (cAlpha :: List.replicate 10 cBeta)).2 = some PyErr.typeError ∧
    ((GeminiClassifier.classify
        (fun b => if b = 0
          then some (jarr [jobj [(pstr "index", Json.num 0), (pstr "category", jstr "Payment")]])
          else some Json.null)
        (cAlpha :: List.replicate 10 cBeta)).1.headD dummyClause).label = some (jstr "Payment") ∧
    ((process_document
        (fun b => if b = 0
          then some (jarr [jobj [(pstr "index", Json.num 0), (pstr "category", jstr "Payment")]])
          else some Json.null)
        (fun _ => none)
        (cAlpha :: List.replicate 10 cBeta)).headD dummyClause).label = some (jstr "General") ∧
    (jstr "General" : Json) ≠ jstr "Payment" := by decide

/-- Claim C10 is false as stated: a successfully parsed response with two
items for the same index first writes `has_obligation = true` together with a
details field, then resets `has_obligation` to `false` while the details
field remains — the final clause carries `obligation_details` although its
`has_obligation` is falsy. -/
theorem C10_counterexample :
    GeminiExtractor.parse_and_update_clauses [cAlpha]
        (some (jarr
          [jobj [(pstr "index", Json.num 0), (pstr "has_obligation", Json.bool true),
                 (pstr "obligation_details", jstr "pay fee")],
           jobj [(pstr "index", Json.num 0), (pstr "has_obligation", Json.bool false),
                 (pstr "obligation_details", jstr "")]]))
      = ([{ cAlpha with
              has_obligation := some (Json.bool false)
              obligation_details := some (jstr "pay fee") }], none) ∧
    truthy (Json.bool false) = false := by decide

theorem set_getD_self {α : Type} :
    ∀ (l : List α) (n : Nat) (a d : α), n < l.length → (l.set n a).getD n d = a := by
  intro l
  induction l with
  | nil => intro n a d h; simp at h
  | cons x t ih =>
    intro n a d h
    cases n with
    | zero => rfl
    | succ m =>
      simp only [List.set_cons_succ, List.getD_cons_succ]
      exact ih m a d (by simpa using h)

theorem set_getD_ne {α : Type} :
    ∀ (l : List α) (n i : Nat) (a d : α), n ≠ i → (l.set n a).getD i d = l.getD i d := by
  intro l
  induction l with
  | nil => intro n i a d _; rfl
  | cons x t ih =>
    intro n i a d hne
    cases n with
    | zero =>
      cases i with
      | zero => exact absurd rfl hne
      | succ j => rfl
    | succ m =>
      cases i with
      | zero => rfl
      | succ j =>
        simp only [List.set_cons_succ, List.getD_cons_succ]
        exact ih m j a d (by omega)

theorem foldr_toList (items : List Json) :
    (items.foldr JsonList.cons JsonList.nil).toList = items := by
  induction items with
  | nil => rfl
  | cons x t ih => simp only [List.foldr_cons, JsonList.toList, ih]

theorem jarr_iterate (items : List Json) : jsonIterate (jarr items) = .ok items := by
  show Except.ok ((items.foldr JsonList.cons JsonList.nil).toList) = Except.ok items
  rw [foldr_toList]

theorem applyItemsE_characterize :
    ∀ (items : List Json) (cs cs' : List Clause),
      (items.map keyOf).Pairwise (· ≠ ·) →
      applyItemsE cs items = (cs', none) →
      cs'.length = cs.length ∧
      ∀ i, i < cs.length →
        cs'.getD i dummyClause = cs.getD i dummyClause ∨
        ∃ item ∈ items, keyOf item = (i : Int) ∧
          cs'.getD i dummyClause = updClause (cs.getD i dummyClause) item := by
  intro items
  induction items with
  | nil =>
    intro cs cs' _ h
    simp only [applyItemsE, Prod.mk.injEq] at h
    rw [← h.1]
    exact ⟨rfl, fun i _ => Or.inl rfl⟩
  | cons item rest ih =>
    intro cs cs' hdist h
    rw [List.map_cons, List.pairwise_cons] at hdist
    obtain ⟨hhead, htail⟩ := hdist
    cases item with
    | obj fs =>
      simp only [applyItemsE] at h
      cases hA : asIndex (fs.get (pstr "index") (Json.num (-1))) with
      | error e => rw [hA] at h; simp at h
      | ok n =>
        rw [hA] at h
        dsimp only at h
        by_cases hin : 0 ≤ n ∧ n < (cs.length : Int)
        · rw [if_pos hin] at h
          have hkeyItem : keyOf (Json.obj fs) = n := by simp [keyOf, hA]
          have hwrite :
              ({ cs.getD n.toNat dummyClause with
                  has_obligation := some (fs.get (pstr "has_obligation") (Json.bool false))
                  obligation_details :=
                    if truthy (fs.get (pstr "has_obligation") (Json.bool false)) &&
                        truthy (fs.get (pstr "obligation_details") (Json.str [])) then
                      some (fs.get (pstr "obligation_details") (Json.str []))
                    else (cs.getD n.toNat dummyClause).obligation_details } : Clause)
                = updClause (cs.getD n.toNat dummyClause) (Json.obj fs) := rfl
          rw [hwrite] at h
          obtain ⟨hlen, hpt⟩ :=
            ih (cs.set n.toNat (updClause (cs.getD n.toNat dummyClause) (Json.obj fs))) cs' htail h
          rw [List.length_set] at hlen
          refine ⟨hlen, fun i hi => ?_⟩
          have hi' : i < (cs.set n.toNat (updClause (cs.getD n.toNat dummyClause) (Json.obj fs))).length := by
            rw [List.length_set]; exact hi
          have hntn : ((n.toNat : Nat) : Int) = n := Int.toNat_of_nonneg hin.1
          rcases hpt i (by rw [List.length_set]; exact hi) with heq | ⟨item', hmem, hkey, hupd⟩
          · by_cases hni : n.toNat = i
            · subst hni
              right
              refine ⟨Json.obj fs, List.mem_cons_self _ _, by rw [hkeyItem]; exact hntn.symm, ?_⟩
              rw [heq]
              exact set_getD_self cs n.toNat _ dummyClause (by omega)
            · left
              rw [heq]
              exact set_getD_ne cs n.toNat i _ dummyClause hni
          · have hni : n.toNat ≠ i := by
              intro hcontra
              apply hhead (keyOf item') (List.mem_map_of_mem keyOf hmem)
              rw [hkeyItem, hkey, ← hcontra, hntn]
            right
            refine ⟨item', List.mem_cons_of_mem _ hmem, hkey, ?_⟩
            rw [set_getD_ne cs n.toNat i _ dummyClause hni] at hupd
            exact hupd
        · rw [if_neg hin] at h
          obtain ⟨hlen, hpt⟩ := ih cs cs' htail h
          refine ⟨hlen, fun i hi => ?_⟩
          rcases hpt i hi with heq | ⟨item', hmem, hkey, hupd⟩
          · exact Or.inl heq
          · exact Or.inr ⟨item', List.mem_cons_of_mem _ hmem, hkey, hupd⟩
    | null => simp [applyItemsE] at h
    | bool b => simp [applyItemsE] at h
    | num m => simp [applyItemsE] at h
    | str s => simp [applyItemsE] at h
    | arr xs => simp [applyItemsE] at h

/-- Claim C10 (amended): on a parse failure the extraction fallback leaves
every details field untouched and sets `has_obligation = false` exactly on
the clauses that lack the field, raising nothing (first conjunct).  After a
successfully parsed response whose items address pairwise-distinct indices
updates clauses that entered the stage without a details field, every clause
carrying `obligation_details` has a truthy value there and a truthy
`has_obligation` (second conjunct); duplicate indices in one response can
break this invariant. -/
theorem C10_details_invariant :
    (∀ cs : List Clause,
      ((GeminiExtractor.parse_and_update_clauses cs none).1).map Clause.obligation_details
        = cs.map Clause.obligation_details ∧
      ((GeminiExtractor.parse_and_update_clauses cs none).1).map Clause.has_obligation
        = cs.map (fun c =>
            if c.has_obligation = none then some (Json.bool false) else c.has_obligation) ∧
      (GeminiExtractor.parse_and_update_clauses cs none).2 = none) ∧
    (∀ (items : List Json) (cs cs' : List Clause),
      (∀ c ∈ cs, c.obligation_details = none) →
      (items.map keyOf).Pairwise (· ≠ ·) →
      GeminiExtractor.parse_and_update_clauses cs (some (jarr items)) = (cs', none) →
      ∀ c ∈ cs', ∀ d, c.obligation_details = some d →
        truthy d = true ∧ ∃ h, c.has_obligation = some h ∧ truthy h = true) := by
  constructor
  · intro cs
    refine ⟨?_, ?_, rfl⟩
    · show (extractFallback cs).map Clause.obligation_details = cs.map Clause.obligation_details
      unfold extractFallback
      rw [List.map_map]
      apply List.map_congr_left
      intro c _
      by_cases hc : c.has_obligation = none <;> simp [Function.comp, hc]
    · show (extractFallback cs).map Clause.has_obligation = _
      unfold extractFallback
      rw [List.map_map]
      apply List.map_congr_left
      intro c _
      by_cases hc : c.has_obligation = none <;> simp [Function.comp, hc]
  · intro items cs cs' hod hdist hparse
    have happly : applyItemsE cs items = (cs', none) := by
      have hred : GeminiExtractor.parse_and_update_clauses cs (some (jarr items))
          = applyItemsE cs items := by
        show (match jsonIterate (jarr items) with
          | .error e => (cs, some e)
          | .ok its => applyItemsE cs its) = applyItemsE cs items
        rw [jarr_iterate items]
      rw [← hred]
      exact hparse
    obtain ⟨hlen, hpt⟩ := applyItemsE_characterize items cs cs' hdist happly
    intro c hc d hcd
    obtain ⟨⟨i, hi⟩, hget⟩ := List.mem_iff_get.mp hc
    have hgetD : cs'.getD i dummyClause = c := by
      rw [List.getD_eq_getElem cs' dummyClause hi]
      rw [← hget]
      rfl
    have hilt : i < cs.length := by rw [← hlen]; exact hi
    have hmemcs : cs.getD i dummyClause ∈ cs := by
      rw [List.getD_eq_getElem cs dummyClause hilt]
      exact List.getElem_mem hilt
    have hc0 : (cs.getD i dummyClause).obligation_details = none := hod _ hmemcs
    rcases hpt i hilt with heq | ⟨item, _, _, hupd⟩
    · rw [← hgetD, heq, hc0] at hcd
      exact absurd hcd (by simp)
    · rw [← hgetD, hupd] at hcd
      rw [← hgetD, hupd]
      cases item with
      | obj fs =>
        have hcd2 : (updClause (cs.getD i dummyClause) (Json.obj fs)).obligation_details
            = (if truthy (fs.get (pstr "has_obligation") (Json.bool false)) &&
                  truthy (fs.get (pstr "obligation_details") (Json.str [])) then
                some (fs.get (pstr "obligation_details") (Json.str []))
              else (cs.getD i dummyClause).obligation_details) := rfl
        have hho : (updClause (cs.getD i dummyClause) (Json.obj fs)).has_obligation
            = some (fs.get (pstr "has_obligation") (Json.bool false)) := rfl
        rw [hcd2] at hcd
        by_cases htr : (truthy (fs.get (pstr "has_obligation") (Json.bool false)) &&
            truthy (fs.get (pstr "obligation_details") (Json.str []))) = true
        · rw [if_pos htr] at hcd
          simp only [Option.some.injEq] at hcd
          obtain ⟨h1, h2⟩ : truthy (fs.get (pstr "has_obligation") (Json.bool false)) = true ∧
              truthy (fs.get (pstr "obligation_details") (Json.str [])) = true := by
            simpa using htr
          exact ⟨hcd ▸ h2, ⟨fs.get (pstr "has_obligation") (Json.bool false), hho, h1⟩⟩
        · rw [if_neg htr, hc0] at hcd
          exact absurd hcd (by simp)
      | null =>
        rw [show updClause (cs.getD i dummyClause) Json.null = cs.getD i dummyClause from rfl,
          hc0] at hcd
        exact absurd hcd (by simp)
      | bool b =>
        rw [show updClause (cs.getD i dummyClause) (Json.bool b) = cs.getD i dummyClause from rfl,
          hc0] at hcd
        exact absurd hcd (by simp)
      | num m =>
        rw [show updClause (cs.getD i dummyClause) (Json.num m) = cs.getD i dummyClause from rfl,
          hc0] at hcd
        exact absurd hcd (by simp)
      | str s =>
        rw [show updClause (cs.getD i dummyClause) (Json.str s) = cs.getD i dummyClause from rfl,
          hc0] at hcd
        exact absurd hcd (by simp)
      | arr xs =>
        rw [show updClause (cs.getD i dummyClause) (Json.arr xs) = cs.getD i dummyClause from rfl,
          hc0] at hcd
        exact absurd hcd (by simp)

/-- Witness for C10 (amended): a single-item response with a truthy flag and
non-empty details yields a clause whose details value and obligation flag are
both truthy. -/
theorem C10_details_invariant_witness :
    truthy (jstr "pay") = true ∧
    ∃ h, ({ cAlpha with has_obligation := some (Json.bool true), obligation_details := some (jstr "pay") } : Clause).has_obligation = some h ∧ truthy h = true :=
  (C10_details_invariant.2
    [jobj [(pstr "index", Json.num 0), (pstr "has_obligation", Json.bool true),
           (pstr "obligation_details", jstr "pay")]]
    [cAlpha]
    [{ cAlpha with has_obligation := some (Json.bool true), obligation_details := some (jstr "pay") }]
    (by decide) (by decide) (by decide))
    { cAlpha with has_obligation := some (Json.bool true), obligation_details := some (jstr "pay") }
    (by decide) (jstr "pay") rfl
